import Mathlib

/-!
Verification of the ImgPdfSquisher batch pipeline orchestrator.

This file shallowly embeds the core of the repository — the batch pipeline
in `manga_compressor.py` together with the helper modules
(`modules/config.py`, `modules/system_optimizer.py`, `modules/stats.py`,
`modules/image_processor.py`, `modules/pdf_extractor.py`) — as executable
Lean definitions, and proves or refutes the specification claims about it.

Modelling conventions:
* machine integers are `Nat`/`Int`; floating point sizes, ratios and RAM
  measurements are modelled as exact rationals (`ℚ`);
* the integer truncation `int(...)` of the source is `pyInt`;
* the stateful pipeline (`compress_pdf` / `_compress_with_modules` /
  `_process_batch_modular`) is embedded as a pure function over an
  environment giving, per poll point, the value of the external stop
  predicate and of the internal stop flag, and, per batch, the extraction
  outcome, the number of extraction-wait timeouts and the worker
  completion order.
-/

namespace ImgPdfSquisher

/-! ### Constants from modules/config.py -/

def MIN_BATCH_SIZE : Nat := 3

def MAX_BATCH_SIZE : Nat := 100

def ESTIMATED_MB_PER_PAGE : Nat := 12

def BW_DETECTION_THRESHOLD : ℚ := 0.85

/-! ### Python integer truncation

`int(x)` in the source truncates a real toward zero. -/

def pyInt (q : ℚ) : ℤ := if 0 ≤ q then ⌊q⌋ else -⌊-q⌋

/-! ### Batch ranges (manga_compressor.py, lines 157-160)

The orchestrator computes the page ranges with
`for start_page in range(1, total_pages + 1, batch_size):
   end_page = min(start_page + batch_size - 1, total_pages)`.
`pyRangeLoop stop step fuel start` embeds the iteration sequence of the
Python `range(start, stop, step)` loop; the fuel argument dominates the
number of iterations whenever `1 ≤ step`. -/

def pyRangeLoop (stop step : Nat) : Nat → Nat → List Nat
  | 0, _ => []
  | fuel + 1, start =>
      if start < stop then start :: pyRangeLoop stop step fuel (start + step) else []

def batchRanges (total_pages batch_size : Nat) : List (Nat × Nat) :=
  (pyRangeLoop (total_pages + 1) batch_size (total_pages + 1) 1).map
    (fun start_page => (start_page, min (start_page + batch_size - 1) total_pages))

/-- Pages covered by a 1-indexed inclusive range `(start_page, end_page)`. -/
def expandRange (r : Nat × Nat) : List Nat := List.range' r.1 (r.2 + 1 - r.1)

theorem pyRangeLoop_eq_nil {stop step start : Nat} (fuel : Nat) (h : stop ≤ start) :
    pyRangeLoop stop step fuel start = [] := by
  cases fuel <;> simp [pyRangeLoop, Nat.not_lt.mpr h]

theorem mem_pyRangeLoop {stop step x : Nat} :
    ∀ {fuel start : Nat}, x ∈ pyRangeLoop stop step fuel start → start ≤ x ∧ x < stop := by
  intro fuel
  induction fuel with
  | zero => intro start hx; simp [pyRangeLoop] at hx
  | succ fuel ih =>
    intro start hx
    by_cases hs : start < stop
    · simp only [pyRangeLoop, if_pos hs, List.mem_cons] at hx
      rcases hx with rfl | hx
      · exact ⟨Nat.le_refl _, hs⟩
      · have := ih hx
        omega
    · simp [pyRangeLoop, hs] at hx

theorem pyRangeLoop_pairwise (stop step : Nat) :
    ∀ (fuel start : Nat),
      (pyRangeLoop stop step fuel start).Pairwise (fun a b => a + step ≤ b) := by
  intro fuel
  induction fuel with
  | zero => intro start; simp [pyRangeLoop]
  | succ fuel ih =>
    intro start
    by_cases hs : start < stop
    · simp only [pyRangeLoop, if_pos hs]
      refine List.Pairwise.cons ?_ (ih (start + step))
      intro b hb
      exact (mem_pyRangeLoop hb).1
    · simp [pyRangeLoop, hs]

theorem batchRanges_flatMap_aux (total step : Nat) (hstep : 1 ≤ step) :
    ∀ (fuel start : Nat), 1 ≤ start → total + 1 ≤ start + fuel →
      ((pyRangeLoop (total + 1) step fuel start).map
          (fun s => (s, min (s + step - 1) total))).flatMap expandRange
        = List.range' start (total + 1 - start) := by
  intro fuel
  induction fuel with
  | zero =>
    intro start h1 h2
    have hz : total + 1 - start = 0 := by omega
    simp [pyRangeLoop, hz]
  | succ fuel ih =>
    intro start h1 h2
    by_cases hs : start < total + 1
    · simp only [pyRangeLoop, if_pos hs, List.map_cons, List.flatMap_cons]
      by_cases hle : start + step - 1 ≤ total
      · have hmin : min (start + step - 1) total = start + step - 1 := min_eq_left hle
        have hexp : expandRange (start, start + step - 1) = List.range' start step := by
          have hlen : start + step - 1 + 1 - start = step := by omega
          simp [expandRange, hlen]
        rw [hmin, hexp, ih (start + step) (by omega) (by omega)]
        have hcount : total + 1 - (start + step) + step = total + 1 - start := by omega
        rw [List.range'_append_1, hcount]
      · have hmin : min (start + step - 1) total = total := min_eq_right (by omega)
        have hnil : pyRangeLoop (total + 1) step fuel (start + step) = [] :=
          pyRangeLoop_eq_nil fuel (by omega)
        rw [hmin, hnil]
        simp [expandRange]
    · have hz : total + 1 - start = 0 := by omega
      simp [pyRangeLoop, hs, hz]

/-- C2: for every `total_pages ≥ 1` and `batch_size ≥ 1`, the batch ranges
computed by the orchestrator are 1-indexed inclusive, nonempty, within
bounds, pairwise disjoint and in increasing order, and the concatenation of
the pages they cover is exactly the page list `1, …, total_pages` — the
ranges partition the page space with no gaps or overlaps. -/
theorem batchRanges_partition (total_pages batch_size : Nat)
    (_ht : 1 ≤ total_pages) (hk : 1 ≤ batch_size) :
    (batchRanges total_pages batch_size).flatMap expandRange
        = List.range' 1 total_pages
    ∧ (∀ r ∈ batchRanges total_pages batch_size,
        1 ≤ r.1 ∧ r.1 ≤ r.2 ∧ r.2 ≤ total_pages)
    ∧ (batchRanges total_pages batch_size).Pairwise (fun r₁ r₂ => r₁.2 < r₂.1) := by
  refine ⟨?_, ?_, ?_⟩
  · have h := batchRanges_flatMap_aux total_pages batch_size hk
      (total_pages + 1) 1 (Nat.le_refl 1) (by omega)
    simpa [batchRanges] using h
  · intro r hr
    simp only [batchRanges, List.mem_map] at hr
    obtain ⟨s, hs, rfl⟩ := hr
    have hmem := mem_pyRangeLoop hs
    refine ⟨hmem.1, ?_, ?_⟩
    · simp only
      omega
    · simp only
      omega
  · have hp := pyRangeLoop_pairwise (total_pages + 1) batch_size
      (total_pages + 1) 1
    unfold batchRanges
    rw [List.pairwise_map]
    refine hp.imp ?_
    intro a b hab
    simp only
    omega

/-- Concrete instance of `batchRanges_partition` at `total_pages = 10`,
`batch_size = 4`. -/
theorem batchRanges_partition_witness :
    (batchRanges 10 4).flatMap expandRange = List.range' 1 10
    ∧ (∀ r ∈ batchRanges 10 4, 1 ≤ r.1 ∧ r.1 ≤ r.2 ∧ r.2 ≤ 10)
    ∧ (batchRanges 10 4).Pairwise (fun r₁ r₂ => r₁.2 < r₂.1) :=
  batchRanges_partition 10 4 (by decide) (by decide)

/-! ### Batch size (modules/system_optimizer.py, get_optimal_batch_size,
and the additional clamp in manga_compressor.py, line 145) -/

def get_optimal_batch_size (has_ssd : Bool) (total_pages : Nat)
    (available_ram_gb : ℚ) : ℤ :=
  let ram_pages : ℤ := pyInt (available_ram_gb * 1024 / (ESTIMATED_MB_PER_PAGE : ℚ))
  let storage_multiplier : ℚ := if has_ssd then 1.5 else 0.8
  let optimal_size : ℤ := pyInt ((ram_pages : ℚ) * storage_multiplier)
  let clamped : ℤ := max (MIN_BATCH_SIZE : ℤ) (min (MAX_BATCH_SIZE : ℤ) optimal_size)
  min clamped (total_pages : ℤ)

/-- Batch size actually used by the orchestrator:
`batch_size = max(8, min(optimal_batch, 64))`. -/
def orchestratorBatchSize (has_ssd : Bool) (total_pages : Nat)
    (available_ram_gb : ℚ) : ℤ :=
  max 8 (min (get_optimal_batch_size has_ssd total_pages available_ram_gb) 64)

/-- C3, counterexample: at `total_pages = 1` with 0 GB of available RAM
(a legal non-negative measurement) and no SSD, `get_optimal_batch_size`
returns 1, which is below `MIN_BATCH_SIZE = 3`, and the orchestrator batch
size is 8, which exceeds `total_pages`; so the computed batch size is
neither always within `[MIN_BATCH, MAX_BATCH]` nor always at most
`total_pages`. -/
theorem batch_size_claim_counterexample :
    get_optimal_batch_size false 1 0 = 1
    ∧ ¬ ((MIN_BATCH_SIZE : ℤ) ≤ get_optimal_batch_size false 1 0)
    ∧ orchestratorBatchSize false 1 0 = 8
    ∧ ¬ (orchestratorBatchSize false 1 0 ≤ (1 : ℤ)) := by
  have h2 : pyInt ((0 : ℚ) * 1024 / (ESTIMATED_MB_PER_PAGE : ℚ)) = 0 := by
    norm_num [pyInt]
  have hgosb : get_optimal_batch_size false 1 0 = 1 := by
    simp only [get_optimal_batch_size, h2]
    norm_num [pyInt, MIN_BATCH_SIZE, MAX_BATCH_SIZE]
  have horch : orchestratorBatchSize false 1 0 = 8 := by
    simp only [orchestratorBatchSize, hgosb]
    norm_num
  refine ⟨hgosb, ?_, horch, ?_⟩
  · rw [hgosb]; norm_num [MIN_BATCH_SIZE]
  · rw [horch]; norm_num

/-- C3 amended: `get_optimal_batch_size` never exceeds `MAX_BATCH_SIZE`
and never exceeds `total_pages`; it is at least
`min MIN_BATCH_SIZE total_pages`, hence at least `MIN_BATCH_SIZE` whenever
`total_pages ≥ MIN_BATCH_SIZE`.  The orchestrator batch size always lies
in `[8, 64]` (hence within `[MIN_BATCH_SIZE, MAX_BATCH_SIZE]`), and is at
most `total_pages` whenever `total_pages ≥ 8`; for smaller documents it
can exceed `total_pages`. -/
theorem batch_size_bounds (has_ssd : Bool) (total_pages : Nat)
    (available_ram_gb : ℚ) :
    get_optimal_batch_size has_ssd total_pages available_ram_gb ≤ (MAX_BATCH_SIZE : ℤ)
    ∧ get_optimal_batch_size has_ssd total_pages available_ram_gb ≤ (total_pages : ℤ)
    ∧ min (MIN_BATCH_SIZE : ℤ) (total_pages : ℤ)
        ≤ get_optimal_batch_size has_ssd total_pages available_ram_gb
    ∧ ((MIN_BATCH_SIZE : ℤ) ≤ (total_pages : ℤ) →
        (MIN_BATCH_SIZE : ℤ) ≤ get_optimal_batch_size has_ssd total_pages available_ram_gb)
    ∧ (8 : ℤ) ≤ orchestratorBatchSize has_ssd total_pages available_ram_gb
    ∧ orchestratorBatchSize has_ssd total_pages available_ram_gb ≤ (64 : ℤ)
    ∧ (MIN_BATCH_SIZE : ℤ) ≤ orchestratorBatchSize has_ssd total_pages available_ram_gb
    ∧ orchestratorBatchSize has_ssd total_pages available_ram_gb ≤ (MAX_BATCH_SIZE : ℤ)
    ∧ ((8 : ℤ) ≤ (total_pages : ℤ) →
        orchestratorBatchSize has_ssd total_pages available_ram_gb ≤ (total_pages : ℤ)) := by
  simp only [orchestratorBatchSize, get_optimal_batch_size, MIN_BATCH_SIZE, MAX_BATCH_SIZE]
  generalize pyInt ((pyInt (available_ram_gb * 1024 / (ESTIMATED_MB_PER_PAGE : ℚ)) : ℚ)
      * (if has_ssd then (1.5 : ℚ) else 0.8)) = x
  omega

/-- Concrete instance of `batch_size_bounds` at `has_ssd = false`,
`total_pages = 10`, 8 GB of available RAM. -/
theorem batch_size_bounds_witness :
    get_optimal_batch_size false 10 8 ≤ (MAX_BATCH_SIZE : ℤ)
    ∧ get_optimal_batch_size false 10 8 ≤ (10 : ℤ)
    ∧ min (MIN_BATCH_SIZE : ℤ) (10 : ℤ) ≤ get_optimal_batch_size false 10 8
    ∧ ((MIN_BATCH_SIZE : ℤ) ≤ (10 : ℤ) →
        (MIN_BATCH_SIZE : ℤ) ≤ get_optimal_batch_size false 10 8)
    ∧ (8 : ℤ) ≤ orchestratorBatchSize false 10 8
    ∧ orchestratorBatchSize false 10 8 ≤ (64 : ℤ)
    ∧ (MIN_BATCH_SIZE : ℤ) ≤ orchestratorBatchSize false 10 8
    ∧ orchestratorBatchSize false 10 8 ≤ (MAX_BATCH_SIZE : ℤ)
    ∧ ((8 : ℤ) ≤ (10 : ℤ) → orchestratorBatchSize false 10 8 ≤ (10 : ℤ)) := by
  have h := batch_size_bounds false 10 8
  simpa using h

/-! ### Compression results and the per-batch write
(manga_compressor.py, _process_batch_modular, lines 264-334)

A worker returns `(size, compressed_data)` for one page; the orchestrator
tags it with the page position `idx` inside the batch, collects the tagged
results in completion order, sorts them by `idx`
(`results.sort(key=lambda x: x[0])`, line 306), and writes each result
whose dimensions are positive (lines 309-329); a result with a
non-positive dimension is only logged and skipped (line 326). -/

structure CompressionResult where
  idx : Nat
  width : Nat
  height : Nat
  data : Nat
deriving DecidableEq, Repr

/-- Comparison used by the per-batch sort: the original page index. -/
def idxLE (a b : CompressionResult) : Prop := a.idx ≤ b.idx

instance : DecidableRel idxLE := fun a b => Nat.decLe a.idx b.idx

instance : IsTotal CompressionResult idxLE := ⟨fun a b => Nat.le_total a.idx b.idx⟩

instance : IsTrans CompressionResult idxLE := ⟨fun _ _ _ => Nat.le_trans⟩

/-- Line 306: a stable sort of the collected results by page index. -/
def sortResults (results : List CompressionResult) : List CompressionResult :=
  List.insertionSort idxLE results

/-- Lines 312-313: a result is drawn only when both dimensions are positive. -/
def validSize (r : CompressionResult) : Bool :=
  decide (0 < r.width) && decide (0 < r.height)

/-- Results actually drawn into the output PDF by the write loop of one
batch, in write order. -/
def writtenResults (results : List CompressionResult) : List CompressionResult :=
  (sortResults results).filter validSize

def writtenIndices (results : List CompressionResult) : List Nat :=
  (writtenResults results).map (fun r => r.idx)

theorem sortResults_perm (results : List CompressionResult) :
    List.Perm (sortResults results) results :=
  List.perm_insertionSort idxLE results

theorem writtenIndices_eq_of_perm (results : List CompressionResult)
    (span : List Nat) (hperm : List.Perm (results.map (fun r => r.idx)) span)
    (hs : span.Sorted (· ≤ ·)) (hv : ∀ r ∈ results, validSize r = true) :
    writtenIndices results = span := by
  have hall : ∀ r ∈ sortResults results, validSize r = true := fun r hr =>
    hv r ((sortResults_perm results).subset hr)
  have hfilter : writtenResults results = sortResults results :=
    List.filter_eq_self.mpr hall
  have hsorted : (sortResults results).Sorted idxLE :=
    List.sorted_insertionSort idxLE results
  have hmap_sorted : ((sortResults results).map (fun r => r.idx)).Sorted (· ≤ ·) := by
    rw [List.Sorted, List.pairwise_map]
    exact hsorted
  have hmap_perm : List.Perm ((sortResults results).map (fun r => r.idx)) span :=
    ((sortResults_perm results).map _).trans hperm
  rw [writtenIndices, hfilter]
  exact List.eq_of_perm_of_sorted hmap_perm hmap_sorted hs

/-- C1: the page indices written by a batch are always sorted in ascending
order; moreover, for any sequence of batches processed in order, if each
batch's compression results carry exactly the page indices of that batch's
span — in an arbitrary worker completion order — and all results have
positive dimensions, then the concatenation of the written page index
sequences equals the concatenation of the spans: output page order equals
input page order, irrespective of completion order. -/
theorem output_page_order_eq_input_order :
    (∀ results : List CompressionResult, (writtenIndices results).Sorted (· ≤ ·))
    ∧ ∀ (batches : List (List CompressionResult)) (spans : List (List Nat)),
        List.Forall₂ (fun results span =>
          List.Perm (results.map (fun r => r.idx)) span
          ∧ ∀ r ∈ results, validSize r = true) batches spans →
        (∀ span ∈ spans, span.Sorted (· ≤ ·)) →
        (batches.map writtenIndices).flatten = spans.flatten := by
  constructor
  · intro results
    have hsorted : (sortResults results).Sorted idxLE :=
      List.sorted_insertionSort idxLE results
    have hfil : (writtenResults results).Sorted idxLE :=
      hsorted.sublist (List.filter_sublist _)
    rw [writtenIndices, List.Sorted, List.pairwise_map]
    exact hfil
  · intro batches spans hf
    induction hf with
    | nil => intro _; simp
    | cons hhead _htail ih =>
      intro hs
      simp only [List.map_cons, List.flatten_cons]
      rw [writtenIndices_eq_of_perm _ _ hhead.1 (hs _ (List.mem_cons_self _ _)) hhead.2,
        ih (fun s hmem => hs s (List.mem_cons_of_mem _ hmem))]

/-- Concrete instance of `output_page_order_eq_input_order`: two batches
with spans `[0, 1, 2]` and `[3, 4]`, results arriving out of order, are
written back in input order. -/
theorem output_page_order_eq_input_order_witness :
    (([[⟨1, 5, 5, 9⟩, ⟨0, 5, 5, 8⟩, ⟨2, 5, 5, 7⟩], [⟨4, 5, 5, 6⟩, ⟨3, 5, 5, 5⟩]] :
        List (List CompressionResult)).map writtenIndices).flatten
      = ([[0, 1, 2], [3, 4]] : List (List Nat)).flatten := by
  have h := output_page_order_eq_input_order.2
    [[⟨1, 5, 5, 9⟩, ⟨0, 5, 5, 8⟩, ⟨2, 5, 5, 7⟩], [⟨4, 5, 5, 6⟩, ⟨3, 5, 5, 5⟩]]
    [[0, 1, 2], [3, 4]]
    (by refine List.Forall₂.cons ⟨?_, ?_⟩ (List.Forall₂.cons ⟨?_, ?_⟩ List.Forall₂.nil) <;>
      decide)
    (by decide)
  exact h

/-! ### The pipeline run
(compress_pdf / _compress_with_modules / _process_batch_modular)

The run is serialized: the values produced by the extraction futures are
deterministic per range, and the orchestrator consumes ranges strictly in
order, so prefetch does not change any observable value.  The inputs that
concurrency does leave open are made explicit:
* `PollEnv.checker t` — the value of the external stop predicate
  `self._stop_checker()` at the t-th poll of the run;
* `PollEnv.flag t` — the value of the internal flag `self._stop_requested`
  at the t-th poll;
* `RunEnv.extract i` — the pages (width, height, data) produced by
  `extract_page_range` for the i-th batch range (that function catches all
  exceptions and returns an empty list on failure);
* `RunEnv.timeouts i` — how many 0.25 s waits time out before the i-th
  extraction future completes;
* `RunEnv.orders i` — the worker completion order of the i-th batch.

Poll points, in program order: line 106 of compress_pdf (checker only);
then per batch: line 176 (checker only), the extraction wait loop of lines
182-195 (checker or flag, `timeouts i + 1` times), and one poll per
completed compression future at line 279 (checker or flag); finally line
212 before the move (checker only).  A poll that observes a stop makes the
run return false without moving the temp output. -/

structure PollEnv where
  checker : Nat → Bool
  flag : Nat → Bool

structure RunEnv where
  polls : PollEnv
  extract : Nat → List (Nat × Nat × Nat)
  timeouts : Nat → Nat
  orders : Nat → List Nat

structure RunResult where
  ok : Bool
  moved : Bool
  written : List Nat
  pagesProcessed : Nat
  pollCount : Nat
deriving DecidableEq, Repr

/-- Index of the first poll among `t, t+1, …, t+k-1` at which `p` holds. -/
def firstTrue (p : Nat → Bool) : Nat → Nat → Option Nat
  | _, 0 => none
  | t, k + 1 => if p t then some t else firstTrue p (t + 1) k

/-- Line 183 and line 279: `self._stop_checker() or self._stop_requested`. -/
def stopSignal (pe : PollEnv) (t : Nat) : Bool := pe.checker t || pe.flag t

/-- Worker results of one batch collected in completion order (lines
276-287): the worker submitted for position `j` of the batch returns the
size and data of the j-th extracted image. -/
def collectResults (images : List (Nat × Nat × Nat)) (order : List Nat) :
    List CompressionResult :=
  order.filterMap fun j => (images[j]?).map fun p => ⟨j, p.1, p.2.1, p.2.2⟩

/-- The batch loop of `_compress_with_modules` (lines 175-210) together
with `_process_batch_modular`.  Returns `Except.error u` when the poll at
index `u` observed a stop (the run returns false), and otherwise the final
poll index, the total pages counted into `stats.pages_processed`, and the
written pages (as 1-indexed global page numbers, write order). -/
def runRanges (env : RunEnv) :
    List (Nat × Nat) → Nat → Nat → Nat → List Nat → Except Nat (Nat × Nat × List Nat)
  | [], _, t, pp, acc => .ok (t, pp, acc)
  | (s, _e) :: rest, i, t, pp, acc =>
    if env.polls.checker t then .error t
    else
      match firstTrue (stopSignal env.polls) (t + 1) (env.timeouts i + 1) with
      | some u => .error u
      | none =>
        let t2 := t + 2 + env.timeouts i
        let images := env.extract i
        if images.isEmpty then
          runRanges env rest (i + 1) t2 pp acc
        else
          match firstTrue (stopSignal env.polls) t2 (env.orders i).length with
          | some u => .error u
          | none =>
            runRanges env rest (i + 1) (t2 + (env.orders i).length)
              (pp + images.length)
              (acc ++ (writtenResults (collectResults images (env.orders i))).map
                  (fun r => s + r.idx))

/-- The public entry point `compress_pdf` (line 93): one poll at line 106,
the zero-page check of `_compress_with_modules` (line 138), the batch
loop, the final poll at line 212, and the move of the temp output to
`output_path` at line 215. -/
def compress_pdf (env : RunEnv) (total_pages batch_size : Nat) : RunResult :=
  if env.polls.checker 0 then ⟨false, false, [], 0, 1⟩
  else if total_pages = 0 then ⟨false, false, [], 0, 1⟩
  else
    match runRanges env (batchRanges total_pages batch_size) 0 1 0 [] with
    | .error u => ⟨false, false, [], 0, u + 1⟩
    | .ok (t, pp, written) =>
      if env.polls.checker t then ⟨false, false, [], pp, t + 1⟩
      else ⟨true, true, written, pp, t + 1⟩

/-- Total number of pages produced by extraction over the first
`numRanges` ranges (what `stats.pages_processed` accumulates). -/
def extractedTotal (env : RunEnv) (numRanges : Nat) : Nat :=
  ((List.range' 0 numRanges).map fun i => (env.extract i).length).sum

theorem firstTrue_eq_none {p : Nat → Bool} :
    ∀ {k t : Nat}, firstTrue p t k = none →
      ∀ u, t ≤ u → u < t + k → p u = false := by
  intro k
  induction k with
  | zero => intro t _ u h1 h2; omega
  | succ k ih =>
    intro t h u h1 h2
    rw [firstTrue] at h
    by_cases hp : p t
    · simp [hp] at h
    · rcases Nat.eq_or_lt_of_le h1 with heq | hlt
      · rw [← heq]
        simpa using hp
      · rw [if_neg hp] at h
        exact ih h u hlt (by omega)

theorem firstTrue_of_all_false {p : Nat → Bool} (hp : ∀ u, p u = false) :
    ∀ k t, firstTrue p t k = none := by
  intro k
  induction k with
  | zero => intro t; rfl
  | succ k ih => intro t; rw [firstTrue, hp t, if_neg (by simp)]; exact ih (t + 1)

/-- On the success path every poll performed by the batch loop saw a false
stop predicate. -/
theorem runRanges_ok_polls (env : RunEnv) :
    ∀ (rs : List (Nat × Nat)) (i t pp : Nat) (acc : List Nat)
      (t' pp' : Nat) (acc' : List Nat),
      runRanges env rs i t pp acc = .ok (t', pp', acc') →
      t ≤ t' ∧ ∀ u, t ≤ u → u < t' → env.polls.checker u = false := by
  intro rs
  induction rs with
  | nil =>
    intro i t pp acc t' pp' acc' h
    simp only [runRanges, Except.ok.injEq, Prod.mk.injEq] at h
    obtain ⟨rfl, -, -⟩ := h
    exact ⟨Nat.le_refl t, fun u h1 h2 => absurd h2 (by omega)⟩
  | cons r rest ih =>
    obtain ⟨s, e⟩ := r
    intro i t pp acc t' pp' acc' h
    rw [runRanges] at h
    by_cases hc : env.polls.checker t
    · rw [if_pos hc] at h; exact absurd h (by simp)
    · rw [if_neg hc] at h
      cases hft : firstTrue (stopSignal env.polls) (t + 1) (env.timeouts i + 1) with
      | some u => rw [hft] at h; exact absurd h (by simp)
      | none =>
        rw [hft] at h
        have hwait : ∀ u, t + 1 ≤ u → u < t + 2 + env.timeouts i →
            env.polls.checker u = false := by
          intro u h1 h2
          have := firstTrue_eq_none hft u h1 (by omega)
          exact (Bool.or_eq_false_iff.mp this).1
        have hct : env.polls.checker t = false := by
          cases hcb : env.polls.checker t
          · rfl
          · exact absurd hcb hc
        by_cases hemp : (env.extract i).isEmpty
        · rw [if_pos hemp] at h
          obtain ⟨hle, hall⟩ := ih (i + 1) (t + 2 + env.timeouts i) pp acc t' pp' acc' h
          refine ⟨by omega, fun u h1 h2 => ?_⟩
          rcases Nat.lt_or_ge u (t + 1) with hu | hu
          · have : u = t := by omega
            rw [this]; exact hct
          · rcases Nat.lt_or_ge u (t + 2 + env.timeouts i) with hu2 | hu2
            · exact hwait u hu hu2
            · exact hall u hu2 h2
        · rw [if_neg hemp] at h
          cases hft2 : firstTrue (stopSignal env.polls) (t + 2 + env.timeouts i)
              (env.orders i).length with
          | some u => rw [hft2] at h; exact absurd h (by simp)
          | none =>
            rw [hft2] at h
            have hcomp : ∀ u, t + 2 + env.timeouts i ≤ u →
                u < t + 2 + env.timeouts i + (env.orders i).length →
                env.polls.checker u = false := by
              intro u h1 h2
              have := firstTrue_eq_none hft2 u h1 h2
              exact (Bool.or_eq_false_iff.mp this).1
            obtain ⟨hle, hall⟩ := ih (i + 1)
              (t + 2 + env.timeouts i + (env.orders i).length)
              (pp + (env.extract i).length)
              (acc ++ (writtenResults (collectResults (env.extract i) (env.orders i))).map
                (fun r => s + r.idx)) t' pp' acc' h
            refine ⟨by omega, fun u h1 h2 => ?_⟩
            rcases Nat.lt_or_ge u (t + 1) with hu | hu
            · have : u = t := by omega
              rw [this]; exact hct
            · rcases Nat.lt_or_ge u (t + 2 + env.timeouts i) with hu2 | hu2
              · exact hwait u hu hu2
              · rcases Nat.lt_or_ge u (t + 2 + env.timeouts i + (env.orders i).length)
                  with hu3 | hu3
                · exact hcomp u hu2 hu3
                · exact hall u hu3 h2

/-- When no stop is ever observed, the batch loop always succeeds,
whatever the extraction results are, and counts exactly the extracted
pages. -/
theorem runRanges_no_stop (env : RunEnv)
    (hstop : ∀ t, stopSignal env.polls t = false) :
    ∀ (rs : List (Nat × Nat)) (i t pp : Nat) (acc : List Nat),
      ∃ (t' : Nat) (acc' : List Nat),
        runRanges env rs i t pp acc
          = .ok (t', pp + ((List.range' i rs.length).map
              fun j => (env.extract j).length).sum, acc') := by
  have hc : ∀ t, env.polls.checker t = false :=
    fun t => (Bool.or_eq_false_iff.mp (hstop t)).1
  intro rs
  induction rs with
  | nil => intro i t pp acc; exact ⟨t, acc, by simp [runRanges]⟩
  | cons r rest ih =>
    obtain ⟨s, e⟩ := r
    intro i t pp acc
    rw [runRanges, if_neg (by rw [hc t]; simp),
      firstTrue_of_all_false hstop (env.timeouts i + 1) (t + 1)]
    by_cases hemp : (env.extract i).isEmpty
    · rw [if_pos hemp]
      obtain ⟨t', acc', hrun⟩ := ih (i + 1) (t + 2 + env.timeouts i) pp acc
      refine ⟨t', acc', ?_⟩
      rw [hrun]
      have hlen : (env.extract i).length = 0 := by
        rw [List.isEmpty_iff] at hemp
        rw [hemp]; rfl
      simp [List.range'_succ, hlen]
    · rw [if_neg hemp,
        firstTrue_of_all_false hstop (env.orders i).length (t + 2 + env.timeouts i)]
      obtain ⟨t', acc', hrun⟩ := ih (i + 1) (t + 2 + env.timeouts i + (env.orders i).length)
        (pp + (env.extract i).length)
        (acc ++ (writtenResults (collectResults (env.extract i) (env.orders i))).map
          (fun r => s + r.idx))
      refine ⟨t', acc', ?_⟩
      rw [hrun]
      have : pp + (env.extract i).length
          + ((List.range' (i + 1) rest.length).map fun j => (env.extract j).length).sum
          = pp + ((List.range' i (rest.length + 1)).map
              fun j => (env.extract j).length).sum := by
        rw [List.range'_succ]
        simp [Nat.add_assoc]
      rw [this]
      simp

/-! ### Concrete run environments -/

/-- No stop is ever requested and the external predicate is always false. -/
def falsePolls : PollEnv := ⟨fun _ => false, fun _ => false⟩

/-- A run whose single range fails extraction: `extract_page_range`
returned an empty list. -/
def emptyExtractEnv : RunEnv := ⟨falsePolls, fun _ => [], fun _ => 0, fun _ => []⟩

/-- A run of one 1-page range whose stop flag (`request_stop`) becomes true
just after the last flag-consulting poll: the only remaining poll is the
final checker-only poll at line 212. -/
def lateFlagEnv : RunEnv :=
  ⟨⟨fun _ => false, fun t => decide (4 ≤ t)⟩,
    fun _ => [(100, 100, 0)], fun _ => 0, fun _ => [0]⟩

/-- A run of one 1-page range whose external stop predicate becomes true
at poll index 3 (during batch compression). -/
def stopAt3Env : RunEnv :=
  ⟨⟨fun t => decide (3 ≤ t), fun _ => false⟩,
    fun _ => [(100, 100, 0)], fun _ => 0, fun _ => [0]⟩

/-- A run of one 2-page range whose first page reports width 0. -/
def invalidDimEnv : RunEnv :=
  ⟨falsePolls, fun _ => [(0, 100, 5), (100, 100, 6)], fun _ => 0, fun _ => [0, 1]⟩

/-! ### C4: failed extraction of a range -/

/-- C4, counterexample: with no stop requested, a 1-page document whose
only range extraction yields no images (the extractor catches the
rasterizer exception and returns an empty list) still completes with
`compress_pdf` returning true and the output moved into place, with zero
pages processed — the run does not fail and the partial output is
retained, contradicting the claim. -/
theorem extraction_failure_claim_counterexample :
    (compress_pdf emptyExtractEnv 1 8).ok = true
    ∧ (compress_pdf emptyExtractEnv 1 8).moved = true
    ∧ (compress_pdf emptyExtractEnv 1 8).pagesProcessed = 0
    ∧ (compress_pdf emptyExtractEnv 1 8).written = [] := by
  decide

/-- C4 amended: extraction failure is never fatal.  When extraction of a
range fails, `extract_page_range` returns an empty list,
`_process_batch_modular` returns success on the empty batch, and the
pipeline continues: with no stop observed, `compress_pdf` returns true and
moves the output into place whatever the extraction results are, counting
only the pages actually extracted — so a failed range is silently skipped
and the retained output can have fewer pages than `total_pages`. -/
theorem extraction_failure_silently_skipped (env : RunEnv)
    (total_pages batch_size : Nat)
    (hstop : ∀ t, stopSignal env.polls t = false) (ht : 0 < total_pages) :
    (compress_pdf env total_pages batch_size).ok = true
    ∧ (compress_pdf env total_pages batch_size).moved = true
    ∧ (compress_pdf env total_pages batch_size).pagesProcessed
        = extractedTotal env (batchRanges total_pages batch_size).length := by
  have hc : ∀ t, env.polls.checker t = false :=
    fun t => (Bool.or_eq_false_iff.mp (hstop t)).1
  obtain ⟨t', acc', hrun⟩ :=
    runRanges_no_stop env hstop (batchRanges total_pages batch_size) 0 1 0 []
  rw [compress_pdf, if_neg (by rw [hc 0]; simp), if_neg (by omega), hrun]
  dsimp only
  rw [if_neg (by rw [hc t']; simp)]
  exact ⟨rfl, rfl, by simp [extractedTotal]⟩

/-- Concrete instance of `extraction_failure_silently_skipped`: first range
yields no images, second range yields one page; the run succeeds with one
page processed out of two. -/
theorem extraction_failure_silently_skipped_witness :
    (compress_pdf ⟨falsePolls, fun i => if i = 0 then [] else [(100, 100, 0)],
        fun _ => 0, fun _ => [0]⟩ 2 1).ok = true
    ∧ (compress_pdf ⟨falsePolls, fun i => if i = 0 then [] else [(100, 100, 0)],
        fun _ => 0, fun _ => [0]⟩ 2 1).moved = true
    ∧ (compress_pdf ⟨falsePolls, fun i => if i = 0 then [] else [(100, 100, 0)],
        fun _ => 0, fun _ => [0]⟩ 2 1).pagesProcessed
        = extractedTotal ⟨falsePolls, fun i => if i = 0 then [] else [(100, 100, 0)],
            fun _ => 0, fun _ => [0]⟩ (batchRanges 2 1).length :=
  extraction_failure_silently_skipped _ 2 1 (fun _ => rfl) (by decide)

/-! ### C5: cancellation -/

theorem compress_pdf_ok_eq_moved (env : RunEnv) (total_pages batch_size : Nat) :
    (compress_pdf env total_pages batch_size).ok
      = (compress_pdf env total_pages batch_size).moved := by
  rw [compress_pdf]
  split
  · rfl
  · split
    · rfl
    · split
      · rfl
      · split <;> rfl

/-- If the finished run moved the output into place, then every poll the
run performed saw a false external stop predicate. -/
theorem compress_pdf_moved_polls (env : RunEnv) (total_pages batch_size : Nat)
    (hmoved : (compress_pdf env total_pages batch_size).moved = true) :
    ∀ u, u < (compress_pdf env total_pages batch_size).pollCount →
      env.polls.checker u = false := by
  intro u hu
  rw [compress_pdf] at hmoved hu
  by_cases hc0 : env.polls.checker 0
  · rw [if_pos hc0] at hmoved
    exact absurd hmoved (by simp)
  · rw [if_neg hc0] at hmoved hu
    by_cases ht0 : total_pages = 0
    · rw [if_pos ht0] at hmoved
      exact absurd hmoved (by simp)
    · rw [if_neg ht0] at hmoved hu
      cases hrun : runRanges env (batchRanges total_pages batch_size) 0 1 0 [] with
      | error w =>
        rw [hrun] at hmoved
        exact absurd hmoved (by simp)
      | ok v =>
        obtain ⟨t, pp, acc⟩ := v
        rw [hrun] at hmoved hu
        dsimp only at hmoved hu
        by_cases hct : env.polls.checker t
        · rw [if_pos hct] at hmoved
          exact absurd hmoved (by simp)
        · rw [if_neg hct] at hu
          dsimp only at hu
          obtain ⟨hle, hall⟩ := runRanges_ok_polls env _ 0 1 0 [] t pp acc hrun
          have hc0f : env.polls.checker 0 = false := by
            cases hcb : env.polls.checker 0
            · rfl
            · exact absurd hcb hc0
          have hctf : env.polls.checker t = false := by
            cases hcb : env.polls.checker t
            · rfl
            · exact absurd hcb hct
          rcases Nat.lt_or_ge u 1 with h1 | h1
          · have : u = 0 := by omega
            rw [this]; exact hc0f
          · rcases Nat.lt_or_ge u t with h2 | h2
            · exact hall u h1 h2
            · have : u = t := by omega
              rw [this]; exact hctf

/-- C5 amended: if the external stop predicate returns true at any poll
point actually reached during the run, the run returns false and no file
is moved to the output path.  (The internal `request_stop` flag, by
contrast, is only consulted at the extraction-wait and compression polls —
see the counterexample.) -/
theorem stop_predicate_prevents_output (env : RunEnv)
    (total_pages batch_size : Nat)
    (h : ∃ t, t < (compress_pdf env total_pages batch_size).pollCount
        ∧ env.polls.checker t = true) :
    (compress_pdf env total_pages batch_size).ok = false
    ∧ (compress_pdf env total_pages batch_size).moved = false := by
  obtain ⟨t, ht, hct⟩ := h
  cases hmv : (compress_pdf env total_pages batch_size).moved
  · exact ⟨by rw [compress_pdf_ok_eq_moved, hmv], rfl⟩
  · have := compress_pdf_moved_polls env total_pages batch_size hmv t ht
    rw [hct] at this
    exact absurd this (by simp)

/-- Concrete instance of `stop_predicate_prevents_output`: the external
stop predicate becomes true at poll 3, during batch compression; the run
returns false and nothing is moved. -/
theorem stop_predicate_prevents_output_witness :
    (compress_pdf stopAt3Env 1 8).ok = false
    ∧ (compress_pdf stopAt3Env 1 8).moved = false :=
  stop_predicate_prevents_output stopAt3Env 1 8 ⟨3, by decide, by decide⟩

/-- C5, counterexample: `request_stop` sets only the internal flag; the
final pre-move poll at line 212 consults only the external stop predicate.
In a run where the flag becomes true at the final poll index (the external
predicate staying false), the flag is true at a poll point of the run, yet
`compress_pdf` returns true and the output is moved into place —
contradicting the claim that a stop observed at any poll point yields
result false and no file at the output path. -/
theorem request_stop_claim_counterexample :
    (compress_pdf lateFlagEnv 1 8).ok = true
    ∧ (compress_pdf lateFlagEnv 1 8).moved = true
    ∧ lateFlagEnv.polls.flag ((compress_pdf lateFlagEnv 1 8).pollCount - 1) = true := by
  decide

/-! ### C9: results with non-positive dimensions -/

/-- C9: a compression result with a non-positive width or height is never
among the written results of its batch (it is silently skipped), while the
batch write itself still succeeds; concretely, a 2-page run whose first
page reports width 0 completes with `compress_pdf` returning true, the
output moved into place, and only page 2 written — fewer output pages
than input pages. -/
theorem invalid_dimensions_silently_skipped :
    (∀ (results : List CompressionResult) (r : CompressionResult),
        r ∈ results → validSize r = false → r ∉ writtenResults results)
    ∧ (compress_pdf invalidDimEnv 2 8).ok = true
    ∧ (compress_pdf invalidDimEnv 2 8).moved = true
    ∧ (compress_pdf invalidDimEnv 2 8).written = [2]
    ∧ (compress_pdf invalidDimEnv 2 8).written.length < 2 := by
  refine ⟨?_, by decide, by decide, by decide, by decide⟩
  intro results r _hr hv hmem
  have := List.of_mem_filter hmem
  rw [hv] at this
  exact absurd this (by simp)

/-- Concrete instance of `invalid_dimensions_silently_skipped`: the
zero-width result of the counterexample batch is not written. -/
theorem invalid_dimensions_silently_skipped_witness :
    (⟨0, 0, 100, 5⟩ : CompressionResult) ∈
        ([⟨0, 0, 100, 5⟩, ⟨1, 100, 100, 6⟩] : List CompressionResult)
    ∧ validSize ⟨0, 0, 100, 5⟩ = false
    ∧ (⟨0, 0, 100, 5⟩ : CompressionResult) ∉
        writtenResults [⟨0, 0, 100, 5⟩, ⟨1, 100, 100, 6⟩] :=
  ⟨by decide, by decide,
    invalid_dimensions_silently_skipped.1 _ _ (by decide) (by decide)⟩

/-! ### The pure-BW classifier
(modules/image_processor.py, _is_pure_bw, lines 62-82)

The classifier grayscales the image, downsamples it to about 10,000
pixels, builds the 256-bin luminance histogram, counts
`sum(histogram[:15])` near-black and `sum(histogram[240:])` near-white
pixels, and reports BW when their fraction strictly exceeds
`BW_DETECTION_THRESHOLD`.  The grayscale conversion and the NEAREST
resize are primitives of the external image library; the embedding takes
the luminance values of the (possibly downsampled) image as input. -/

def luminanceHistogram (pixels : List Nat) : List Nat :=
  (List.range 256).map fun v => pixels.count v

def is_pure_bw (pixels : List Nat) : Bool :=
  let histogram := luminanceHistogram pixels
  let black_pixels := (histogram.take 15).sum
  let white_pixels := (histogram.drop 240).sum
  let total_pixels := histogram.sum
  let bw_ratio : ℚ :=
    if 0 < total_pixels then (black_pixels + white_pixels : ℚ) / (total_pixels : ℚ) else 0
  decide (bw_ratio > BW_DETECTION_THRESHOLD)

/-- Modelled from the claim wording of C6, for comparison only: near-white
pixels are those of luminance strictly greater than 240 (the code instead
counts `histogram[240:]`, luminance at least 240). -/
def is_pure_bw_spec (pixels : List Nat) : Bool :=
  let black_pixels := pixels.countP fun p => decide (p < 15)
  let white_pixels := pixels.countP fun p => decide (240 < p)
  let total_pixels := pixels.length
  let bw_ratio : ℚ :=
    if 0 < total_pixels then (black_pixels + white_pixels : ℚ) / (total_pixels : ℚ) else 0
  decide (bw_ratio > BW_DETECTION_THRESHOLD)

theorem countP_split_lo (s k : Nat) :
    ∀ l : List Nat,
      l.countP (fun p => decide (s ≤ p ∧ p < s + k + 1))
        = l.count s + l.countP (fun p => decide (s + 1 ≤ p ∧ p < s + k + 1)) := by
  intro l
  induction l with
  | nil => rfl
  | cons a tl ih =>
    simp only [List.countP_cons, List.count_cons, ih, beq_iff_eq, decide_eq_true_eq]
    split_ifs <;> omega

theorem sum_count_range' (l : List Nat) :
    ∀ (k s : Nat),
      ((List.range' s k).map fun v => l.count v).sum
        = l.countP (fun p => decide (s ≤ p ∧ p < s + k)) := by
  intro k
  induction k with
  | zero =>
    intro s
    symm
    simp only [List.range'_zero, List.map_nil, List.sum_nil]
    rw [List.countP_eq_zero]
    intro a _ h
    simp only [decide_eq_true_eq] at h
    omega
  | succ k ih =>
    intro s
    rw [List.range'_succ, List.map_cons, List.sum_cons, ih (s + 1)]
    have h1 : l.countP (fun p => decide (s ≤ p ∧ p < s + (k + 1)))
        = l.count s + l.countP (fun p => decide (s + 1 ≤ p ∧ p < s + k + 1)) :=
      countP_split_lo s k l
    have h2 : l.countP (fun p => decide (s + 1 ≤ p ∧ p < s + 1 + k))
        = l.countP (fun p => decide (s + 1 ≤ p ∧ p < s + k + 1)) := by
      apply List.countP_congr
      intro x _
      simp only [decide_eq_true_eq]
      omega
    rw [h2, ← h1]

theorem luminanceHistogram_take_sum (pixels : List Nat) :
    ((luminanceHistogram pixels).take 15).sum
      = pixels.countP (fun p => decide (p < 15)) := by
  have htake : (List.range 256).take 15 = List.range' 0 15 := by decide
  rw [luminanceHistogram, ← List.map_take, htake, sum_count_range']
  apply List.countP_congr
  intro x _
  simp only [decide_eq_true_eq]
  omega

theorem luminanceHistogram_drop_sum (pixels : List Nat)
    (hp : ∀ p ∈ pixels, p < 256) :
    ((luminanceHistogram pixels).drop 240).sum
      = pixels.countP (fun p => decide (240 ≤ p)) := by
  have hdrop : (List.range 256).drop 240 = List.range' 240 16 := by decide
  rw [luminanceHistogram, ← List.map_drop, hdrop, sum_count_range']
  apply List.countP_congr
  intro x hx
  simp only [decide_eq_true_eq]
  have := hp x hx
  omega

theorem luminanceHistogram_sum (pixels : List Nat)
    (hp : ∀ p ∈ pixels, p < 256) :
    (luminanceHistogram pixels).sum = pixels.length := by
  have hall : List.range 256 = List.range' 0 256 := List.range_eq_range' 256
  rw [luminanceHistogram, hall, sum_count_range']
  have : pixels.countP (fun p => decide (0 ≤ p ∧ p < 0 + 256))
      = pixels.countP (fun _ => true) := by
    apply List.countP_congr
    intro x hx
    have hx2 := hp x hx
    simp only [decide_eq_true_eq]
    exact iff_of_true ⟨Nat.zero_le x, by omega⟩ trivial
  rw [this, List.countP_true]

/-- C6 amended: for every luminance sample (each value below 256), the
classifier reports pure BW exactly when the combined count of near-black
(luminance < 15) and near-white (luminance ≥ 240) pixels, out of the total
count, strictly exceeds the fraction `BW_DETECTION_THRESHOLD = 0.85` —
that is, exactly when `17·total < 20·(black + white)`. -/
theorem is_pure_bw_iff (pixels : List Nat) (hp : ∀ p ∈ pixels, p < 256) :
    is_pure_bw pixels = true ↔
      17 * pixels.length
        < 20 * (pixels.countP (fun p => decide (p < 15))
            + pixels.countP (fun p => decide (240 ≤ p))) := by
  simp only [is_pure_bw, luminanceHistogram_take_sum pixels,
    luminanceHistogram_drop_sum pixels hp, luminanceHistogram_sum pixels hp,
    decide_eq_true_eq]
  rcases Nat.eq_zero_or_pos pixels.length with h0 | h0
  · have hb : pixels.countP (fun p => decide (p < 15)) = 0 := by
      have := List.countP_le_length (p := fun p => decide (p < 15)) (l := pixels)
      omega
    have hw : pixels.countP (fun p => decide (240 ≤ p)) = 0 := by
      have := List.countP_le_length (p := fun p => decide (240 ≤ p)) (l := pixels)
      omega
    rw [h0, hb, hw, if_neg (by omega)]
    rw [BW_DETECTION_THRESHOLD]
    norm_num
  · rw [if_pos h0, BW_DETECTION_THRESHOLD, gt_iff_lt,
      lt_div_iff₀ (by exact_mod_cast h0 : (0 : ℚ) < (pixels.length : ℚ))]
    constructor
    · intro h
      have h20 : (17 : ℚ) * (pixels.length : ℚ)
          < 20 * ((pixels.countP (fun p => decide (p < 15)) : ℚ)
              + (pixels.countP (fun p => decide (240 ≤ p)) : ℚ)) := by
        linarith
      exact_mod_cast h20
    · intro h
      have h20 : (17 : ℚ) * (pixels.length : ℚ)
          < 20 * ((pixels.countP (fun p => decide (p < 15)) : ℚ)
              + (pixels.countP (fun p => decide (240 ≤ p)) : ℚ)) := by
        exact_mod_cast h
      linarith

/-- Concrete instance of `is_pure_bw_iff` on the sample `[0, 255, 100]`. -/
theorem is_pure_bw_iff_witness :
    is_pure_bw [0, 255, 100] = true ↔
      17 * ([0, 255, 100] : List Nat).length
        < 20 * (([0, 255, 100] : List Nat).countP (fun p => decide (p < 15))
            + ([0, 255, 100] : List Nat).countP (fun p => decide (240 ≤ p))) :=
  is_pure_bw_iff [0, 255, 100] (by decide)

/-- C6, counterexample: a (downsample-free) image consisting of the single
luminance value 240.  The code counts it near-white (`histogram[240:]`)
and classifies the image as pure BW, while the claimed rule — near-white
means luminance strictly above 240 — classifies it as not BW. -/
theorem is_pure_bw_claim_counterexample :
    is_pure_bw [240] = true ∧ is_pure_bw_spec [240] = false := by
  constructor
  · rw [is_pure_bw_iff [240] (by decide)]
    decide
  · have hb : ([240] : List Nat).countP (fun p => decide (p < 15)) = 0 := by decide
    have hw : ([240] : List Nat).countP (fun p => decide (240 < p)) = 0 := by decide
    simp only [is_pure_bw_spec, hb, hw, List.length_singleton]
    rw [if_pos (by omega)]
    rw [BW_DETECTION_THRESHOLD]
    norm_num

/-! ### Resizing (modules/image_processor.py, optimize_image, lines 18-33)

`optimize_image` computes `scale = min(target_w/w, target_h/h)` and
resizes to `(int(w*scale), int(h*scale))` only when `scale < 1.0`; the
subsequent sharpening step does not change the pixel size.  The embedding
tracks the pixel dimensions. -/

def optimize_image_size (target_w target_h img_w img_h : Nat) : Nat × Nat :=
  let scale_w : ℚ := (target_w : ℚ) / (img_w : ℚ)
  let scale_h : ℚ := (target_h : ℚ) / (img_h : ℚ)
  let scale : ℚ := min scale_w scale_h
  if scale < 1 then
    ((pyInt ((img_w : ℚ) * scale)).toNat, (pyInt ((img_h : ℚ) * scale)).toNat)
  else (img_w, img_h)

/-- C7: the resize step never upscales — the pixel dimensions of the image
returned by `optimize_image` never exceed the dimensions of the input
image, for every target size and every (nonempty) input image. -/
theorem pyInt_toNat_le {q : ℚ} {n : Nat} (h0 : 0 ≤ q) (h : q ≤ (n : ℚ)) :
    (pyInt q).toNat ≤ n := by
  rw [pyInt, if_pos h0, Int.toNat_le]
  calc ⌊q⌋ ≤ ⌊(n : ℚ)⌋ := Int.floor_le_floor h
    _ = (n : ℤ) := Int.floor_natCast _

theorem optimize_image_never_upscales (target_w target_h img_w img_h : Nat)
    (_hw : 0 < img_w) (_hh : 0 < img_h) :
    (optimize_image_size target_w target_h img_w img_h).1 ≤ img_w
    ∧ (optimize_image_size target_w target_h img_w img_h).2 ≤ img_h := by
  simp only [optimize_image_size]
  by_cases hs : min ((target_w : ℚ) / (img_w : ℚ)) ((target_h : ℚ) / (img_h : ℚ)) < 1
  · rw [if_pos hs]
    have hs0 : 0 ≤ min ((target_w : ℚ) / (img_w : ℚ)) ((target_h : ℚ) / (img_h : ℚ)) :=
      le_min (div_nonneg (Nat.cast_nonneg _) (Nat.cast_nonneg _))
        (div_nonneg (Nat.cast_nonneg _) (Nat.cast_nonneg _))
    constructor
    · apply pyInt_toNat_le (mul_nonneg (Nat.cast_nonneg _) hs0)
      calc (img_w : ℚ) * min _ _ ≤ (img_w : ℚ) * 1 :=
            mul_le_mul_of_nonneg_left (le_of_lt hs) (Nat.cast_nonneg _)
        _ = (img_w : ℚ) := mul_one _
    · apply pyInt_toNat_le (mul_nonneg (Nat.cast_nonneg _) hs0)
      calc (img_h : ℚ) * min _ _ ≤ (img_h : ℚ) * 1 :=
            mul_le_mul_of_nonneg_left (le_of_lt hs) (Nat.cast_nonneg _)
        _ = (img_h : ℚ) := mul_one _
  · rw [if_neg hs]
    exact ⟨Nat.le_refl _, Nat.le_refl _⟩

/-- Concrete instance of `optimize_image_never_upscales`: a 3000×4000
image against the tablet_10 target 1600×2560. -/
theorem optimize_image_never_upscales_witness :
    (optimize_image_size 1600 2560 3000 4000).1 ≤ 3000
    ∧ (optimize_image_size 1600 2560 3000 4000).2 ≤ 4000 :=
  optimize_image_never_upscales 1600 2560 3000 4000 (by decide) (by decide)

/-! ### Statistics (modules/stats.py, CompressionStats)

Sizes are in MB as rationals; `elapsed` stands for the value of
`time.time() - self.start_time` at the moment of the call. -/

structure CompressionStats where
  pages_processed : Nat
  pages_total : Nat
  original_size_mb : ℚ
  compressed_size_mb : ℚ

def compression_ratio (s : CompressionStats) : ℚ :=
  if 0 < s.original_size_mb then s.compressed_size_mb / s.original_size_mb else 1

def space_saved_mb (s : CompressionStats) : ℚ :=
  max 0 (s.original_size_mb - s.compressed_size_mb)

def is_compression_effective (s : CompressionStats) : Bool :=
  decide (compression_ratio s < 0.95)

/-- The final-stats warning of manga_compressor.py (lines 375-376) is
printed exactly when `is_compression_effective` returns false. -/
def low_effectiveness_warning (s : CompressionStats) : Bool :=
  ! is_compression_effective s

def pages_per_second (s : CompressionStats) (elapsed : ℚ) : ℚ :=
  if 0 < elapsed then (s.pages_processed : ℚ) / elapsed else 0

def eta_seconds (s : CompressionStats) (elapsed : ℚ) : ℚ :=
  if 0 < s.pages_processed ∧ s.pages_processed < s.pages_total then
    if 0 < pages_per_second s elapsed then
      ((s.pages_total - s.pages_processed : ℕ) : ℚ) / pages_per_second s elapsed
    else 0
  else 0

/-- C8, counterexample: a run with original size 100 MB and compressed
size 95 MB has ratio exactly 0.95; the claim says no warning is emitted
for ratio ≤ 0.95, but the code warns whenever
`not (ratio < 0.95)`, so here the warning is emitted although the ratio
does not exceed 0.95. -/
theorem low_effectiveness_claim_counterexample :
    low_effectiveness_warning ⟨10, 10, 100, 95⟩ = true
    ∧ ¬ ((0.95 : ℚ) < compression_ratio ⟨10, 10, 100, 95⟩) := by
  have hr : compression_ratio ⟨10, 10, 100, 95⟩ = 0.95 := by
    rw [compression_ratio]
    norm_num
  constructor
  · rw [low_effectiveness_warning, is_compression_effective, hr]
    norm_num
  · rw [hr]
    norm_num

/-- C8 amended: the low-effectiveness warning is flagged exactly when
`compression_ratio` is greater than or equal to 0.95 (the code warns when
`not (ratio < 0.95)`); in particular it is emitted for every run with
ratio > 0.95 and not emitted for every run with ratio < 0.95, while a run
with ratio exactly 0.95 is also warned about. -/
theorem low_effectiveness_warning_iff (s : CompressionStats) :
    low_effectiveness_warning s = true ↔ (0.95 : ℚ) ≤ compression_ratio s := by
  rw [low_effectiveness_warning, is_compression_effective, Bool.not_eq_true',
    decide_eq_false_iff_not, not_lt]

/-- C10: every derived statistic is total and non-negative on non-negative
inputs: `compression_ratio` is exactly 1 when the original size is not
positive and non-negative otherwise; `space_saved_mb` is never negative;
`pages_per_second` is 0 when elapsed time is not positive and never
negative; `eta_seconds` is 0 when no page is processed, when no page
remains, or when the rate is 0, and never negative. -/
theorem stats_derivations_total_and_nonneg (s : CompressionStats) (elapsed : ℚ)
    (_horig : 0 ≤ s.original_size_mb) (hcomp : 0 ≤ s.compressed_size_mb) :
    (¬ 0 < s.original_size_mb → compression_ratio s = 1)
    ∧ 0 ≤ compression_ratio s
    ∧ 0 ≤ space_saved_mb s
    ∧ (¬ 0 < elapsed → pages_per_second s elapsed = 0)
    ∧ 0 ≤ pages_per_second s elapsed
    ∧ (s.pages_processed = 0 ∨ s.pages_total ≤ s.pages_processed
        ∨ pages_per_second s elapsed = 0 → eta_seconds s elapsed = 0)
    ∧ 0 ≤ eta_seconds s elapsed := by
  have hpps : 0 ≤ pages_per_second s elapsed := by
    rw [pages_per_second]
    split
    · exact div_nonneg (Nat.cast_nonneg _) (le_of_lt (by assumption))
    · exact le_refl 0
  refine ⟨?_, ?_, ?_, ?_, hpps, ?_, ?_⟩
  · intro h
    rw [compression_ratio, if_neg h]
  · rw [compression_ratio]
    split
    · exact div_nonneg hcomp (le_of_lt (by assumption))
    · norm_num
  · exact le_max_left 0 _
  · intro h
    rw [pages_per_second, if_neg h]
  · intro h
    rw [eta_seconds]
    rcases h with h | h | h
    · rw [if_neg (by omega)]
    · rw [if_neg (by omega)]
    · by_cases hcond : 0 < s.pages_processed ∧ s.pages_processed < s.pages_total
      · rw [if_pos hcond, if_neg (by rw [h]; exact lt_irrefl 0)]
      · rw [if_neg hcond]
  · rw [eta_seconds]
    split
    · split
      · exact div_nonneg (Nat.cast_nonneg _) (le_of_lt (by assumption))
      · exact le_refl 0
    · exact le_refl 0

/-- Concrete instance of `stats_derivations_total_and_nonneg` at 5 of 10
pages processed, 100 MB to 50 MB, 2 seconds elapsed. -/
theorem stats_derivations_total_and_nonneg_witness :
    (¬ 0 < (⟨5, 10, 100, 50⟩ : CompressionStats).original_size_mb →
        compression_ratio ⟨5, 10, 100, 50⟩ = 1)
    ∧ 0 ≤ compression_ratio ⟨5, 10, 100, 50⟩
    ∧ 0 ≤ space_saved_mb ⟨5, 10, 100, 50⟩
    ∧ (¬ 0 < (2 : ℚ) → pages_per_second ⟨5, 10, 100, 50⟩ 2 = 0)
    ∧ 0 ≤ pages_per_second ⟨5, 10, 100, 50⟩ 2
    ∧ ((⟨5, 10, 100, 50⟩ : CompressionStats).pages_processed = 0
        ∨ (⟨5, 10, 100, 50⟩ : CompressionStats).pages_total
            ≤ (⟨5, 10, 100, 50⟩ : CompressionStats).pages_processed
        ∨ pages_per_second ⟨5, 10, 100, 50⟩ 2 = 0 → eta_seconds ⟨5, 10, 100, 50⟩ 2 = 0)
    ∧ 0 ≤ eta_seconds ⟨5, 10, 100, 50⟩ 2 :=
  stats_derivations_total_and_nonneg ⟨5, 10, 100, 50⟩ 2 (by norm_num) (by norm_num)

end ImgPdfSquisher
